import Mathlib

/-!
Verification of the wetlog log-extraction tool (`main.go`) against its
natural-language specification.  Go strings are modelled as lists of
characters; the log data handled by the tool is ASCII, where Go's byte
positions and character positions coincide (and for arbitrary valid UTF-8,
byte-wise lexicographic order coincides with code-point lexicographic
order, which keeps the string comparisons faithful).  Fallible Go code is
modelled with `Option`/`Except`; a Go runtime panic is modelled as `none`.
-/

namespace Wetlog

/-- Strings of the Go program, modelled as lists of characters. -/
abbrev Str := List Char

/-- Conversion from Lean string literals to the model's character lists. -/
def str (s : String) : Str := s.data

/-! ### Go `strings` primitives used by the program -/

/-- Index of the first occurrence of `t` inside `s` (Go `strings.Index`);
`none` when `t` does not occur.  `goIndex s [] = some 0` for every `s`,
as in Go. -/
def goIndex : Str → Str → Option Nat
  | [], t => if t = [] then some 0 else none
  | c :: cs, t =>
    if t.isPrefixOf (c :: cs) then some 0
    else (goIndex cs t).map (fun i => i + 1)

/-- Go `strings.Contains`. -/
def goContains (s t : Str) : Bool := (goIndex s t).isSome

/-- Go `strings.SplitN(s, sep, 2)`.  For a non-empty separator this yields
the part before the first occurrence and the rest after it (or `[s]` when
`sep` does not occur).  For the empty separator Go explodes the string
character-wise into at most 2 pieces: `[]` for the empty string, `[s]`
for a one-character string, and `[first char, rest]` otherwise
(`strings.explode` with `n = 2`). -/
def goSplitN2 (s sep : Str) : List Str :=
  if sep = [] then
    match s with
    | [] => []
    | [c] => [[c]]
    | c :: rest => [[c], rest]
  else
    match goIndex s sep with
    | none => [s]
    | some i => [s.take i, s.drop (i + sep.length)]

/-- Character class `\w` of Go's RE2 regexps: `[0-9A-Za-z_]`. -/
def isWordChar (c : Char) : Bool :=
  ('0' ≤ c && c ≤ '9') || ('A' ≤ c && c ≤ 'Z') || ('a' ≤ c && c ≤ 'z') || c = '_'

/-- Character class `\s` of Go's RE2 regexps: `[\t\n\f\r ]`. -/
def isReSpace (c : Char) : Bool :=
  c = ' ' || c = '\t' || c = '\n' || c = '\x0c' || c = '\r'

/-- White space in the sense of Go's `unicode.IsSpace`, restricted to the
code points below U+00FF (which covers every separator `strings.Fields`
can meet in this program's inputs). -/
def isUniSpace (c : Char) : Bool :=
  c = ' ' || c = '\t' || c = '\n' || c = '\x0b' || c = '\x0c' || c = '\r' ||
  c = '\u0085' || c = '\u00A0'

/-- Helper of `goFields`: accumulates the current field in reverse. -/
def goFieldsAux : Str → Str → List Str
  | acc, [] => if acc = [] then [] else [acc.reverse]
  | acc, c :: rest =>
    if isUniSpace c then
      if acc = [] then goFieldsAux [] rest else acc.reverse :: goFieldsAux [] rest
    else goFieldsAux (c :: acc) rest

/-- Go `strings.Fields`: splits around maximal runs of white space. -/
def goFields (s : Str) : List Str := goFieldsAux [] s

/-- Decimal digit test. -/
def isDigitCh (c : Char) : Bool := '0' ≤ c && c ≤ '9'

/-- Value of a decimal digit character. -/
def digitVal (c : Char) : Nat := c.toNat - 48

/-- Value of a decimal digit string. -/
def natOfDigits (s : Str) : Nat := s.foldl (fun n c => n * 10 + digitVal c) 0

/-! ### Query Filter (`matchQuery` in main.go)

The Go loop body is
`if strings.Contains(textToSearch, query) ... textToSearch = strings.SplitN(textToSearch, query, 2)[1] ... else return false`;
the index `[1]` panics when the `SplitN` result has fewer than two
elements, which is modelled by returning `none`. -/

/-- The `for _, query := range queries` loop of `matchQuery`. -/
def matchQueryLoop : Str → List Str → Option Bool
  | _, [] => some true
  | text, q :: qs =>
    if goContains text q then
      match (goSplitN2 text q).get? 1 with
      | some rest => matchQueryLoop rest qs
      | none => none
    else
      some false

/-- Embedding of `matchQuery` (main.go); the entry's `Message` field is
passed as `text`. -/
def matchQuery (text : Str) (queries : List Str) : Option Bool :=
  if queries.length = 0 then some true
  else matchQueryLoop text queries

/-- Modelled from the spec's words (section 4.4): every term must be found,
each successive term searched only in the remainder of the text strictly
after the end of the previous term's first match; the empty chain matches
unconditionally. -/
def specMatch : Str → List Str → Bool
  | _, [] => true
  | text, q :: qs =>
    match goIndex text q with
    | none => false
    | some i => specMatch (text.drop (i + q.length)) qs

/-! ### Data model (`LogLevel`, `LogEntry` in main.go) -/

/-- Log levels, in declaration order (iota 0..3). -/
inductive LogLevel where
  | DEBUG
  | INFO
  | WARN
  | ERROR
deriving DecidableEq, Repr

/-- Timestamps at millisecond precision, as validated and produced by Go's
`time.Parse` with layout `2006-01-02 15:04:05,000`. -/
structure DateTime where
  year : Nat
  month : Nat
  day : Nat
  hour : Nat
  minute : Nat
  second : Nat
  millis : Nat
deriving DecidableEq, Repr

/-- Embedding of the `LogEntry` struct. -/
structure LogEntry where
  LogLevel : Wetlog.LogLevel
  Date : DateTime
  LineNumber : Nat
  NodeIP : Str
  FilePath : Str
  Message : Str
deriving DecidableEq, Repr

/-- Errors the line classifier can report (Go returns them as `error`). -/
inductive GoError where
  | invalidLogLevel (tok : Str)
  | badDate
deriving DecidableEq, Repr

/-- Embedding of `ParseLogLevel`: exact, case-sensitive token mapping. -/
def parseLogLevel (tok : Str) : Option LogLevel :=
  if tok = str "DEBUG" then some .DEBUG
  else if tok = str "INFO" then some .INFO
  else if tok = str "WARN" then some .WARN
  else if tok = str "ERROR" then some .ERROR
  else none

/-- Gregorian leap-year rule, as used by Go's `time` package. -/
def isLeapYear (y : Nat) : Bool :=
  y % 4 = 0 && (y % 100 ≠ 0 || y % 400 = 0)

/-- Days in a month, as used by Go's `time.Parse` day-range validation. -/
def daysInMonth (y m : Nat) : Nat :=
  if m = 2 then (if isLeapYear y then 29 else 28)
  else if m = 4 ∨ m = 6 ∨ m = 9 ∨ m = 11 then 30
  else 31

/-- Embedding of `ParseDate`, i.e. Go `time.Parse("2006-01-02 15:04:05,000", s)`,
on the strings the program feeds it (exact captures of the timestamp
regexp, 23 characters).  Go validates month, day (calendar-aware), hour,
minute and second ranges and requires the literal separators, with an
actual space between date and time. -/
def parseDate : Str → Option DateTime
  | [y1, y2, y3, y4, '-', mo1, mo2, '-', d1, d2, ' ',
     h1, h2, ':', mi1, mi2, ':', s1, s2, ',', ms1, ms2, ms3] =>
    if [y1, y2, y3, y4, mo1, mo2, d1, d2, h1, h2, mi1, mi2,
        s1, s2, ms1, ms2, ms3].all isDigitCh then
      let y := ((digitVal y1 * 10 + digitVal y2) * 10 + digitVal y3) * 10 + digitVal y4
      let mo := digitVal mo1 * 10 + digitVal mo2
      let d := digitVal d1 * 10 + digitVal d2
      let h := digitVal h1 * 10 + digitVal h2
      let mi := digitVal mi1 * 10 + digitVal mi2
      let sec := digitVal s1 * 10 + digitVal s2
      let ms := (digitVal ms1 * 10 + digitVal ms2) * 10 + digitVal ms3
      if 1 ≤ mo ∧ mo ≤ 12 ∧ 1 ≤ d ∧ d ≤ daysInMonth y mo ∧
         h ≤ 23 ∧ mi ≤ 59 ∧ sec ≤ 59 then
        some ⟨y, mo, d, h, mi, sec, ms⟩
      else none
    else none
  | _ => none

/-- Shape test for the timestamp regexp
`\d{4}-\d{2}-\d{2}\s\d{2}:\d{2}:\d{2},\d{3}` at the head of the string. -/
def isTsShape : Str → Bool
  | y1 :: y2 :: y3 :: y4 :: '-' :: mo1 :: mo2 :: '-' :: d1 :: d2 :: sp ::
    h1 :: h2 :: ':' :: mi1 :: mi2 :: ':' :: s1 :: s2 :: ',' ::
    ms1 :: ms2 :: ms3 :: _ =>
    [y1, y2, y3, y4, mo1, mo2, d1, d2, h1, h2, mi1, mi2,
     s1, s2, ms1, ms2, ms3].all isDigitCh && isReSpace sp
  | _ => false

/-- Leftmost match of the timestamp regexp inside a line (Go
`FindStringSubmatch` capture): the first timestamp-shaped substring. -/
def findTimestamp : Str → Option Str
  | [] => none
  | c :: rest =>
    if isTsShape (c :: rest) then some ((c :: rest).take 23)
    else findTimestamp rest

/-- Leading `\w`-run of a line, the capture of `^(\w+)\s` when the line
starts with a new-entry header. -/
def leadingWord (s : Str) : Str := s.takeWhile isWordChar

/-- Embedding of `startsWithLogLevel`: whether the line matches `^\w+\s`. -/
def startsWithLogLevel (line : Str) : Bool :=
  decide (leadingWord line ≠ []) &&
  (match line.drop (leadingWord line).length with
   | c :: _ => isReSpace c
   | [] => false)

/-- Embedding of `ProcessLine`.  Mirrors the Go pair `(entry, err)`:
no `^(\w+)\s` match or no timestamp-shaped substring gives `(none, none)`;
an unknown severity token or a timestamp failing `ParseDate` gives
`(none, some err)`; otherwise the candidate entry (with empty `NodeIP`). -/
def processLine (line : Str) (lineNumber : Nat) (filePath : Str) :
    Option LogEntry × Option GoError :=
  if startsWithLogLevel line then
    match parseLogLevel (leadingWord line) with
    | none => (none, some (GoError.invalidLogLevel (leadingWord line)))
    | some lvl =>
      match findTimestamp line with
      | none => (none, none)
      | some ts =>
        match parseDate ts with
        | none => (none, some GoError.badDate)
        | some d => (some ⟨lvl, d, lineNumber, [], filePath, line⟩, none)
  else (none, none)

/-- Continuation-line stitching: `currentEntry.Message += "\n" + line`. -/
def appendContinuation (e : LogEntry) (line : Str) : LogEntry :=
  { e with Message := e.Message ++ '\n' :: line }

/-! ### Source Scanner (`ProcessFile` loop in main.go)

The loop is embedded as a pure recursion over the file's lines (1-based
line numbering, as in `for lineNumber := 1; scanner.Scan(); lineNumber++`).
Entries sent to the channel are collected, in emission order, into the
resulting list; a panic of `matchQuery` aborts the scan (`none`). -/

/-- Embedding of the `ProcessFile` scan loop, including the final
flush of the pending entry after end of file. -/
def goScan (queries : List Str) (fp : Str) :
    Nat → Option LogEntry → List Str → Option (List LogEntry)
  | _, none, [] => some []
  | _, some e, [] =>
    match matchQuery e.Message queries with
    | none => none
    | some b => some (if b then [e] else [])
  | n, cur, line :: rest =>
    match cur with
    | some e =>
      if startsWithLogLevel line = false then
        goScan queries fp (n + 1) (some (appendContinuation e line)) rest
      else
        match matchQuery e.Message queries with
        | none => none
        | some b =>
          match goScan queries fp (n + 1) (processLine line n fp).1 rest with
          | none => none
          | some out => some ((if b then [e] else []) ++ out)
    | none => goScan queries fp (n + 1) (processLine line n fp).1 rest

/-- Entries emitted by `ProcessFile` on a file with the given lines. -/
def processFileLines (queries : List Str) (fp : Str) (lines : List Str) :
    Option (List LogEntry) :=
  goScan queries fp 1 none lines

/-! ### Reference state machine of the Source Scanner

Modelled from the spec's words (section 4.3): reading lines top to bottom
with 1-based numbering, a pending entry absorbs non-header lines with a
line-break separator; otherwise any pending entry is finalized (emitted iff
it passes the Query Filter) and the current line is classified to possibly
become the new pending entry; at end of file the remaining pending entry is
finalized the same way. -/

/-- Finalization of a pending entry: run the Query Filter against its
text; emit it iff it passes (the filter may abort, giving `none`). -/
def specFinalize (queries : List Str) (e : LogEntry) : Option (List LogEntry) :=
  (matchQuery e.Message queries).map (fun b => if b then [e] else [])

/-- Lines paired with their 1-based line numbers. -/
def numberFrom : Nat → List Str → List (Nat × Str)
  | _, [] => []
  | n, l :: ls => (n, l) :: numberFrom (n + 1) ls

/-- One step of the reference state machine on a numbered line. -/
def specStep (queries : List Str) (fp : Str)
    (acc : Option (List LogEntry × Option LogEntry)) (nl : Nat × Str) :
    Option (List LogEntry × Option LogEntry) :=
  match acc with
  | none => none
  | some (out, pending) =>
    match pending with
    | some e =>
      if startsWithLogLevel nl.2 = false then
        some (out, some (appendContinuation e nl.2))
      else
        match specFinalize queries e with
        | none => none
        | some emitted => some (out ++ emitted, (processLine nl.2 nl.1 fp).1)
    | none => some (out, (processLine nl.2 nl.1 fp).1)

/-- The reference state machine of the claim, run over a whole file. -/
def specScan (queries : List Str) (fp : Str) (lines : List Str) :
    Option (List LogEntry) :=
  match (numberFrom 1 lines).foldl (specStep queries fp) (some ([], none)) with
  | none => none
  | some (out, none) => some out
  | some (out, some e) =>
    match specFinalize queries e with
    | none => none
    | some emitted => some (out ++ emitted)

/-- The four severity tokens, in declaration order. -/
def severityTokens : List Str := [str "DEBUG", str "INFO", str "WARN", str "ERROR"]

/-- The line pattern of the claim about successful classification:
`^(DEBUG|INFO|WARN|ERROR)\s.*\d{4}-\d{2}-\d{2}\s\d{2}:\d{2}:\d{2},\d{3}.*`.
A line matches iff one of the four tokens is a prefix followed by a `\s`
character and the line has a timestamp-shaped substring (the substring
necessarily lies after the header, since it starts with a digit while the
header consists of letters and one space). -/
def matchesSeverityTsPattern (line : Str) : Bool :=
  severityTokens.any (fun t =>
    t.isPrefixOf line &&
    (match line.drop t.length with
     | c :: _ => isReSpace c
     | [] => false)) &&
  (findTimestamp line).isSome

/-! ### Topology Parser (`ParseNodetoolStatus` in main.go)

A `bufio.Scanner` input is modelled as the list of delivered lines plus an
optional read error reported by `scanner.Err()` after the last line. -/

/-- Embedding of the `Node` struct. -/
structure Node where
  Address : Str
  Datacenter : Str
deriving DecidableEq, Repr

/-- Errors of the topology parser. -/
inductive NtError where
  | noSourcesFound
  | readError (msg : Str)
deriving DecidableEq, Repr

/-- The seven recognized status codes. -/
def statusCodes : List Str :=
  [str "UN", str "DN", str "UL", str "DL", str "UU", str "UJ", str "UM"]

/-- Whether a line begins with one of the status codes. -/
def hasStatusCode (line : Str) : Bool :=
  statusCodes.any (fun c => c.isPrefixOf line)

/-- Whether a line begins with the literal `Datacenter:`. -/
def isDcLine (line : Str) : Bool := (str "Datacenter:").isPrefixOf line

/-- The `for scanner.Scan()` loop of `ParseNodetoolStatus`, carrying the
current datacenter, the accumulated nodes and the `foundNodeStatus` flag. -/
def ntLoop : Str → List Node → Bool → List Str → List Node × Bool
  | _, nodes, found, [] => (nodes, found)
  | dc, nodes, found, line :: rest =>
    if isDcLine line then
      let fs := goFields line
      ntLoop (if 1 < fs.length then fs.getD 1 dc else dc) nodes found rest
    else if hasStatusCode line then
      let fs := goFields line
      if 1 < fs.length then ntLoop dc (nodes ++ [⟨fs.getD 1 [], dc⟩]) true rest
      else ntLoop dc nodes found rest
    else ntLoop dc nodes found rest

/-- Embedding of `ParseNodetoolStatus`.  Note the source checks
`foundNodeStatus` before `scanner.Err()`, in this order. -/
def parseNodetoolStatus (lines : List Str) (readErr : Option Str) :
    Except NtError (List Node) :=
  let r := ntLoop [] [] false lines
  if r.2 = false then Except.error NtError.noSourcesFound
  else
    match readErr with
    | some e => Except.error (NtError.readError e)
    | none => Except.ok r.1

/-- A recognized status row of the claim: a line beginning with one of the
codes and having a second whitespace-delimited field. -/
def statusRow (line : Str) : Bool :=
  hasStatusCode line && decide (1 < (goFields line).length)

/-- The address of a status row: its second whitespace-delimited field. -/
def rowAddress (line : Str) : Str := (goFields line).getD 1 []

/-- The group label a line contributes: the second field of a line starting
with `Datacenter:`, when present. -/
def dcLabelOf (line : Str) : Option Str :=
  if isDcLine line ∧ 1 < (goFields line).length then some ((goFields line).getD 1 [])
  else none

/-- The most recently seen group label after the given lines, starting
from `dc`. -/
def lastLabelFrom (dc : Str) (ls : List Str) : Str :=
  ls.foldl (fun d l => (dcLabelOf l).getD d) dc

/-- Bridge form of the claim's sources: one per status row in encounter
order, each carrying the current label. -/
def sourcesFrom : Str → List Str → List Node
  | _, [] => []
  | dc, l :: ls =>
    (if statusRow l then [⟨rowAddress l, dc⟩] else []) ++
    sourcesFrom ((dcLabelOf l).getD dc) ls

/-- Modelled from the claim's words: one Source per recognized status row,
in encounter order, carrying the most recently seen group label at that
point of the report (the empty string if none has been seen). -/
def specSources (lines : List Str) : List Node :=
  (List.range lines.length).filterMap (fun i =>
    if statusRow (lines.getD i []) then
      some ⟨rowAddress (lines.getD i []), lastLabelFrom [] (lines.take i)⟩
    else none)

/-! ### Aggregator (main.go lines 149-175)

One scanner runs per selected node and all emitted entries are collected
before sorting; since a total sort is applied afterwards, the collection is
modelled denotationally as the concatenation of the per-source outputs in
source order, together with the list of reported per-source failures.  A
source whose log file cannot be opened contributes no entries and its
failure is reported (`log.Printf`), not propagated. -/

/-- Go `filepath.Join(topLevelDir, "nodes", addr, "logs", "cassandra")`
followed by joining `system.log`. -/
def logFilePath (dir addr : Str) : Str :=
  dir ++ str "/nodes/" ++ addr ++ str "/logs/cassandra/system.log"

/-- One per-source scanner: the file system maps an address to the lines of
its log file, or `none` when the file cannot be opened. -/
def scanNode (fsys : Str → Option (List Str)) (queries : List Str) (dir : Str)
    (node : Node) : Option (List LogEntry) × Option Str :=
  match fsys node.Address with
  | none => (some [], some node.Address)
  | some ls => (processFileLines queries (logFilePath dir node.Address) ls, none)

/-- The aggregation over the selected nodes: collected entries (in source
order; the later sort makes the order irrelevant) and reported failures. -/
def aggregateRun (fsys : Str → Option (List Str)) (queries : List Str)
    (dir : Str) : List Node → Option (List LogEntry) × List Str
  | [] => (some [], [])
  | n :: ns =>
    let r := scanNode fsys queries dir n
    let rest := aggregateRun fsys queries dir ns
    (match r.1, rest.1 with
     | some a, some b => some (a ++ b)
     | _, _ => none,
     r.2.toList ++ rest.2)

/-! ### The `nodeip` comparator (`ByNodeIP.Less` in main.go)

`net.ParseIP` of Go 1.20 delegates to `netip.ParseAddr` and yields the
16-byte form (IPv4 addresses in their IPv4-in-IPv6 mapped form); the model
below follows `netip`'s parsers.  `bytes.Compare` and `strings.Compare`
are lexicographic comparisons. -/

/-- Splits a string at every occurrence of `sep` (helper of the IPv4
parser), keeping empty parts. -/
def splitChAux (sep : Char) (acc : Str) : Str → List Str
  | [] => [acc.reverse]
  | c :: rest =>
    if c = sep then acc.reverse :: splitChAux sep [] rest
    else splitChAux sep (c :: acc) rest

/-- Splits a string at every occurrence of `sep`, keeping empty parts. -/
def splitCh (sep : Char) (s : Str) : List Str := splitChAux sep [] s

/-- Validity of one dotted-decimal IPv4 field per `netip.parseIPv4Fields`:
non-empty, all digits, no leading zero on a multi-digit field, value at
most 255. -/
def ipv4FieldOk (f : Str) : Bool :=
  decide (f ≠ []) && f.all isDigitCh &&
  (decide (f.length = 1) || decide (f.headD '0' ≠ '0')) &&
  decide (natOfDigits f ≤ 255)

/-- Embedding of `netip.parseIPv4`: exactly four valid dotted-decimal
fields (written here over the split fields; the Go loop enforces the same
conditions character by character). -/
def parseIPv4 (s : Str) : Option (List Nat) :=
  let parts := splitCh '.' s
  if parts.length == 4 && parts.all ipv4FieldOk then some (parts.map natOfDigits)
  else none

/-- Hexadecimal digit test. -/
def isHexDigit (c : Char) : Bool :=
  isDigitCh c || ('a' ≤ c && c ≤ 'f') || ('A' ≤ c && c ≤ 'F')

/-- Value of a hexadecimal digit character. -/
def hexDigitVal (c : Char) : Nat :=
  if isDigitCh c then c.toNat - 48
  else if 'a' ≤ c && c ≤ 'f' then c.toNat - 87
  else c.toNat - 55

/-- Value of a hexadecimal digit string. -/
def hexVal (s : Str) : Nat := s.foldl (fun n c => n * 16 + hexDigitVal c) 0

/-- The `for i < 16` loop of `netip.parseIPv6`: consumes one hex group per
iteration (or a trailing dotted IPv4 part), tracking consumed bytes `i`,
the produced bytes and the position of a `::` ellipsis.  The loop runs at
most 8 iterations; the fuel argument only serves Lean's termination
checking and is never exhausted on the reachable iterations. -/
def parseIPv6Loop : Nat → Str → Nat → List Nat → Option Nat →
    Option (Str × Nat × List Nat × Option Nat)
  | 0, _, _, _, _ => none
  | fuel + 1, s, i, ip, ell =>
    if 16 ≤ i then some (s, i, ip, ell)
    else
      let hx := s.takeWhile isHexDigit
      if hx.length = 0 then none
      else if 4 < hx.length then none
      else
        match s.drop hx.length with
        | '.' :: _ =>
          if ell = none ∧ i ≠ 12 then none
          else if 16 < i + 4 then none
          else
            match parseIPv4 s with
            | none => none
            | some bs => some ([], i + 4, ip ++ bs, ell)
        | [] => some ([], i + 2, ip ++ [hexVal hx / 256, hexVal hx % 256], ell)
        | ':' :: rest2 =>
          match rest2 with
          | [] => none
          | ':' :: rest3 =>
            if ell.isSome then none
            else
              match rest3 with
              | [] => some ([], i + 2, ip ++ [hexVal hx / 256, hexVal hx % 256],
                            some (i + 2))
              | _ => parseIPv6Loop fuel rest3 (i + 2)
                       (ip ++ [hexVal hx / 256, hexVal hx % 256]) (some (i + 2))
          | _ => parseIPv6Loop fuel rest2 (i + 2)
                   (ip ++ [hexVal hx / 256, hexVal hx % 256]) ell
        | _ => none

/-- Post-loop processing of `netip.parseIPv6`: no trailing input, and a
`::` ellipsis expands to the missing zero bytes (it must expand to at
least one group). -/
def parseIPv6Finish (srem : Str) (i : Nat) (ip : List Nat) (ell : Option Nat) :
    Option (List Nat) :=
  if srem ≠ [] then none
  else if i < 16 then
    match ell with
    | none => none
    | some e => some (ip.take e ++ List.replicate (16 - i) 0 ++ ip.drop e)
  else if ell.isSome then none
  else some ip

/-- Embedding of `netip.parseIPv6` (zone handling lives in `parseIP`). -/
def parseIPv6 (s : Str) : Option (List Nat) :=
  match s with
  | ':' :: ':' :: [] => some (List.replicate 16 0)
  | ':' :: ':' :: rest =>
    match parseIPv6Loop 20 rest 0 [] (some 0) with
    | none => none
    | some (srem, i, ip, ell) => parseIPv6Finish srem i ip ell
  | _ =>
    match parseIPv6Loop 20 s 0 [] none with
    | none => none
    | some (srem, i, ip, ell) => parseIPv6Finish srem i ip ell

/-- Embedding of Go 1.20 `net.ParseIP` as the 16-byte form: the first of
`.`, `:`, `%` decides the branch (dotted IPv4, IPv6, or failure); zoned
addresses (`%`) are rejected by the `net` wrapper; an IPv4 address maps to
its IPv4-in-IPv6 form, so `bytes.Compare` over the results is
well-defined across both families. -/
def parseIP (s : Str) : Option (List Nat) :=
  match s.find? (fun c => c = '.' || c = ':' || c = '%') with
  | some '.' => (parseIPv4 s).map (fun bs => [0, 0, 0, 0, 0, 0, 0, 0, 0, 0, 255, 255] ++ bs)
  | some ':' => if s.contains '%' then none else parseIPv6 s
  | _ => none

/-- Lexicographic strict comparison of numeric lists (`bytes.Compare < 0`,
and via code points `strings.Compare < 0`). -/
def lexLtNat : List Nat → List Nat → Bool
  | [], [] => false
  | [], _ :: _ => true
  | _ :: _, [] => false
  | a :: as, b :: bs => if a < b then true else if b < a then false else lexLtNat as bs

/-- Go `strings.Compare(a, b) < 0`: byte-wise lexicographic order, which on
UTF-8 equals code-point lexicographic order. -/
def charsLt (a b : Str) : Bool := lexLtNat (a.map Char.toNat) (b.map Char.toNat)

/-- Embedding of `ByNodeIP.Less` on the two address strings: numeric
(byte-form) comparison when both parse as IPs, lexicographic fallback when
either fails to parse. -/
def byNodeIPLess (a b : Str) : Bool :=
  match parseIP a, parseIP b with
  | some i1, some i2 => lexLtNat i1 i2
  | _, _ => charsLt a b

/-- A sample finalized entry, used to instantiate universally quantified
theorems at concrete inputs. -/
def sampleEntry : LogEntry :=
  ⟨.ERROR, ⟨2023, 7, 13, 12, 0, 0, 0⟩, 1, [], str "f",
   str "ERROR 2023-07-13 12:00:00,000 a"⟩

/-- A sample file system with a log file for `10.0.0.1` only. -/
def sampleFsys : Str → Option (List Str) := fun a =>
  if a = str "10.0.0.1" then some [str "ERROR 2023-07-13 12:00:00,000 oops"]
  else none

/-- Two sample nodes; the second one's log file is missing in
`sampleFsys`. -/
def sampleNodes : List Node :=
  [⟨str "10.0.0.1", str "DC1"⟩, ⟨str "10.0.0.2", str "DC1"⟩]

/-! ## Theorems -/

lemma goSplitN2_of_index {s q : Str} {i : Nat} (hq : q ≠ []) (h : goIndex s q = some i) :
    goSplitN2 s q = [s.take i, s.drop (i + q.length)] := by
  unfold goSplitN2
  rw [if_neg hq, h]

lemma goContains_eq_false {s q : Str} (h : goIndex s q = none) : goContains s q = false := by
  simp [goContains, h]

lemma goContains_eq_true {s q : Str} {i : Nat} (h : goIndex s q = some i) :
    goContains s q = true := by
  simp [goContains, h]

lemma matchQueryLoop_eq_specMatch :
    ∀ (queries : List Str) (text : Str), (∀ q ∈ queries, q ≠ []) →
      matchQueryLoop text queries = some (specMatch text queries) := by
  intro queries
  induction queries with
  | nil => intro text _; rfl
  | cons q qs ih =>
    intro text h
    have hq : q ≠ [] := h q (by simp)
    cases hidx : goIndex text q with
    | none =>
      simp [matchQueryLoop, specMatch, goContains_eq_false hidx, hidx]
    | some i =>
      have hc := goContains_eq_true hidx
      have hsplit := goSplitN2_of_index hq hidx
      simp only [matchQueryLoop, specMatch, hc, if_true, hsplit, hidx]
      exact ih _ (fun r hr => h r (by simp [hr]))

/-- C5 (counterexample): the claimed iff fails on the code for an
empty-string term.  On text `"abc"` with the chain `["", "a"]`, the
left-to-right search semantics of the claim succeeds (the empty term's
first match ends at position 0, leaving the whole text), but `matchQuery`
returns `false`, because `strings.SplitN` with an empty separator explodes
one character off the text. -/
theorem matchQuery_differs_on_empty_term :
    specMatch (str "abc") [[], str "a"] = true ∧
    matchQuery (str "abc") [[], str "a"] = some false := by
  decide

/-- C5 (amended): restricted to chains of non-empty terms, the Query
Filter returns true iff each term occurs in the text, each successive
term's search restricted to the remainder strictly after the end of the
previous term's first match; an empty chain matches every text; chain
`["a","b"]` matches `"xaybz"` and does not match `"xbya"`. -/
theorem matchQuery_eq_specMatch :
    (∀ text : Str, matchQuery text [] = some true) ∧
    (∀ (text : Str) (queries : List Str), (∀ q ∈ queries, q ≠ []) →
      matchQuery text queries = some (specMatch text queries)) ∧
    matchQuery (str "xaybz") [str "a", str "b"] = some true ∧
    matchQuery (str "xbya") [str "a", str "b"] = some false := by
  refine ⟨fun _ => rfl, fun text queries h => ?_, by decide, by decide⟩
  cases queries with
  | nil => rfl
  | cons q qs =>
    simpa [matchQuery] using matchQueryLoop_eq_specMatch (q :: qs) text h

/-- Witness for the amended C5 theorem at a concrete chain of non-empty
terms. -/
theorem matchQuery_eq_specMatch_witness :
    matchQuery (str "xaybz") [str "a", str "b"] =
      some (specMatch (str "xaybz") [str "a", str "b"]) :=
  matchQuery_eq_specMatch.2.1 (str "xaybz") [str "a", str "b"] (by decide)

/-- C6: the Query Filter is not total.  On entry text `"xa"` with chain
`["a", ""]`, after consuming `"a"` the remaining text is empty, and
`strings.SplitN("", "", 2)` returns an empty slice, so the Go code panics
with an index-out-of-range on `[1]`; the model returns `none`. -/
theorem matchQuery_panics_on_empty_term :
    matchQuery (str "xa") [str "a", []] = none := by
  decide

lemma foldl_specStep_none (queries : List Str) (fp : Str) :
    ∀ ls : List (Nat × Str), ls.foldl (specStep queries fp) none = none := by
  intro ls
  induction ls with
  | nil => rfl
  | cons p ps ih => simpa [specStep] using ih

lemma goScan_eq_spec (queries : List Str) (fp : Str) :
    ∀ (lines : List Str) (n : Nat) (pending : Option LogEntry) (out : List LogEntry),
      (match (numberFrom n lines).foldl (specStep queries fp) (some (out, pending)) with
       | none => none
       | some (o, none) => some o
       | some (o, some e) =>
         match specFinalize queries e with
         | none => none
         | some emitted => some (o ++ emitted)) =
      (goScan queries fp n pending lines).map (fun l => out ++ l) := by
  intro lines
  induction lines with
  | nil =>
    intro n pending out
    cases pending with
    | none => simp [numberFrom, goScan]
    | some e =>
      cases hb : matchQuery e.Message queries with
      | none => simp [numberFrom, goScan, specFinalize, hb]
      | some b => simp [numberFrom, goScan, specFinalize, hb]
  | cons line rest ih =>
    intro n pending out
    cases pending with
    | none =>
      have h := ih (n + 1) (processLine line n fp).1 out
      simpa [numberFrom, specStep, goScan] using h
    | some e =>
      cases hsw : startsWithLogLevel line with
      | false =>
        have h := ih (n + 1) (some (appendContinuation e line)) out
        simpa [numberFrom, specStep, goScan, hsw] using h
      | true =>
        cases hb : matchQuery e.Message queries with
        | none =>
          simp [numberFrom, specStep, goScan, hsw, specFinalize, hb,
                foldl_specStep_none]
        | some b =>
          have h := ih (n + 1) (processLine line n fp).1 (out ++ (if b then [e] else []))
          cases hg : goScan queries fp (n + 1) (processLine line n fp).1 rest with
          | none =>
            rw [hg] at h
            simpa [numberFrom, specStep, goScan, hsw, specFinalize, hb, hg] using h
          | some o =>
            rw [hg] at h
            simp [numberFrom, specStep, goScan, hsw, specFinalize, hb, hg,
                  List.append_assoc] at h ⊢
            exact h

/-- C1: the Source Scanner behaves as the reference state machine of the
spec: reading lines top to bottom with 1-based numbering, a pending entry
absorbs any line not matching the new-entry header pattern with a
line-break separator; otherwise the pending entry is finalized (emitted
iff it passes the Query Filter) and the current line is classified to
possibly become the new pending entry tagged with the line number and file
path; at end of file the remaining pending entry is finalized the same
way, and no other entries are emitted. -/
theorem processFile_refines_specScan :
    ∀ (lines : List Str) (queries : List Str) (fp : Str),
      processFileLines queries fp lines = specScan queries fp lines := by
  intro lines queries fp
  have h := goScan_eq_spec queries fp lines 1 none []
  simp only [List.nil_append] at h
  simpa [processFileLines, specScan, Option.map_id] using h.symm

/-- C4: a line that matches the header shape `^\w+\s` but fails
classification (unknown severity token, no timestamp-shaped substring, or
an invalid date) is discarded entirely: the previously pending entry (if
any) is finalized as usual — emitted iff it passes the Query Filter — the
line is not appended to any entry, and no new pending entry is created
(the scan continues on the rest of the file with no pending entry). -/
theorem malformed_header_discarded :
    ∀ (queries : List Str) (fp : Str) (n : Nat) (e : LogEntry) (line : Str)
      (rest : List Str),
      startsWithLogLevel line = true →
      (processLine line n fp).1 = none →
      (goScan queries fp n (some e) (line :: rest) =
        (match matchQuery e.Message queries with
         | none => none
         | some b => (goScan queries fp (n + 1) none rest).map
             (fun out => (if b then [e] else []) ++ out))) ∧
      goScan queries fp n none (line :: rest) = goScan queries fp (n + 1) none rest := by
  intro queries fp n e line rest h1 h2
  constructor
  · cases hb : matchQuery e.Message queries with
    | none => simp [goScan, h1, h2, hb]
    | some b =>
      cases hg : goScan queries fp (n + 1) none rest with
      | none => simp [goScan, h1, h2, hb, hg]
      | some out => simp [goScan, h1, h2, hb, hg]
  · simp [goScan, h2]

/-- Witness for the C4 theorem at a concrete malformed header line
(unknown severity token `FOO`). -/
theorem malformed_header_discarded_witness :
    startsWithLogLevel (str "FOO bar") = true ∧
    (processLine (str "FOO bar") 5 (str "f")).1 = none ∧
    ((goScan [] (str "f") 5 (some sampleEntry) [str "FOO bar"] =
      (match matchQuery sampleEntry.Message [] with
       | none => none
       | some b => (goScan [] (str "f") 6 none []).map
           (fun out => (if b then [sampleEntry] else []) ++ out))) ∧
     goScan [] (str "f") 5 none [str "FOO bar"] = goScan [] (str "f") 6 none []) :=
  ⟨by decide, by decide,
   malformed_header_discarded [] (str "f") 5 sampleEntry (str "FOO bar") []
     (by decide) (by decide)⟩

lemma isReSpace_not_word {c : Char} (h : isReSpace c = true) : isWordChar c = false := by
  simp only [isReSpace, Bool.or_eq_true, decide_eq_true_eq] at h
  rcases h with (((h | h) | h) | h) | h <;> subst h <;> decide

lemma takeWhile_append_of (t u : Str) (hword : t.all isWordChar = true)
    (hu : ∀ c r, u = c :: r → isWordChar c = false) :
    (t ++ u).takeWhile isWordChar = t := by
  induction t with
  | nil =>
    cases u with
    | nil => rfl
    | cons c r => simp [List.takeWhile_cons, hu c r rfl]
  | cons a t ih =>
    simp only [List.all_cons, Bool.and_eq_true] at hword
    simp [List.takeWhile_cons, hword.1, ih hword.2]

lemma classify_with_token (line : Str) (n : Nat) (fp : Str) (ts : Str) (d : DateTime)
    (t : Str) (lvl : LogLevel)
    (hplvl : parseLogLevel t = some lvl)
    (hword : t.all isWordChar = true) (hne : t ≠ [])
    (hpre : t.isPrefixOf line = true)
    (hsp : ∃ c rest2, line.drop t.length = c :: rest2 ∧ isReSpace c = true)
    (hts : findTimestamp line = some ts) (hd : parseDate ts = some d) :
    parseLogLevel (leadingWord line) = some lvl ∧
      (processLine line n fp).1 = some ⟨lvl, d, n, [], fp, line⟩ := by
  obtain ⟨u, rfl⟩ := List.isPrefixOf_iff_prefix.mp hpre
  obtain ⟨c, r2, hdrop, hspc⟩ := hsp
  rw [List.drop_left] at hdrop
  subst hdrop
  have hlead : leadingWord (t ++ c :: r2) = t :=
    takeWhile_append_of t (c :: r2) hword
      (fun c' r' h => by cases h; exact isReSpace_not_word hspc)
  have hstart : startsWithLogLevel (t ++ c :: r2) = true := by
    simp [startsWithLogLevel, hlead, List.drop_left, hspc, hne]
  refine ⟨by rw [hlead]; exact hplvl, ?_⟩
  simp [processLine, hstart, hlead, hplvl, hts, hd]

/-- C3 (amended): for every line matching
`^(DEBUG|INFO|WARN|ERROR)\s.*\d{4}-\d{2}-\d{2}\s\d{2}:\d{2}:\d{2},\d{3}.*`
whose first timestamp-shaped substring is additionally accepted by the
exact-format date parser (space separator, calendar-valid fields),
classification succeeds and the produced entry carries exactly the
severity named by the leading token and exactly the millisecond-precision
timestamp of that first timestamp-shaped substring. -/
theorem classification_on_pattern :
    ∀ (line : Str) (n : Nat) (fp : Str) (ts : Str) (d : DateTime),
      matchesSeverityTsPattern line = true →
      findTimestamp line = some ts →
      parseDate ts = some d →
      ∃ lvl, parseLogLevel (leadingWord line) = some lvl ∧
        (processLine line n fp).1 = some ⟨lvl, d, n, [], fp, line⟩ := by
  intro line n fp ts d hpat hts hd
  unfold matchesSeverityTsPattern at hpat
  rw [Bool.and_eq_true] at hpat
  obtain ⟨hany, _⟩ := hpat
  rw [List.any_eq_true] at hany
  obtain ⟨t, htmem, ht⟩ := hany
  rw [Bool.and_eq_true] at ht
  obtain ⟨hpre, hsp'⟩ := ht
  have hsp : ∃ c rest2, line.drop t.length = c :: rest2 ∧ isReSpace c = true := by
    cases hdrop : line.drop t.length with
    | nil => rw [hdrop] at hsp'; exact absurd hsp' (by simp)
    | cons c rest2 => rw [hdrop] at hsp'; exact ⟨c, rest2, rfl, hsp'⟩
  simp only [severityTokens, List.mem_cons, List.not_mem_nil, or_false] at htmem
  rcases htmem with rfl | rfl | rfl | rfl
  · exact ⟨.DEBUG, classify_with_token line n fp ts d _ _ (by decide) (by decide)
      (by decide) hpre hsp hts hd⟩
  · exact ⟨.INFO, classify_with_token line n fp ts d _ _ (by decide) (by decide)
      (by decide) hpre hsp hts hd⟩
  · exact ⟨.WARN, classify_with_token line n fp ts d _ _ (by decide) (by decide)
      (by decide) hpre hsp hts hd⟩
  · exact ⟨.ERROR, classify_with_token line n fp ts d _ _ (by decide) (by decide)
      (by decide) hpre hsp hts hd⟩

/-- Witness for the amended C3 theorem on a concrete well-formed line. -/
theorem classification_on_pattern_witness :
    matchesSeverityTsPattern (str "ERROR 2023-07-13 12:00:00,000 failure X") = true ∧
    findTimestamp (str "ERROR 2023-07-13 12:00:00,000 failure X") =
      some (str "2023-07-13 12:00:00,000") ∧
    parseDate (str "2023-07-13 12:00:00,000") = some ⟨2023, 7, 13, 12, 0, 0, 0⟩ ∧
    (∃ lvl, parseLogLevel (leadingWord (str "ERROR 2023-07-13 12:00:00,000 failure X")) =
        some lvl ∧
      (processLine (str "ERROR 2023-07-13 12:00:00,000 failure X") 1 (str "f")).1 =
        some ⟨lvl, ⟨2023, 7, 13, 12, 0, 0, 0⟩, 1, [], str "f",
              str "ERROR 2023-07-13 12:00:00,000 failure X"⟩) :=
  ⟨by decide, by decide, by decide,
   classification_on_pattern (str "ERROR 2023-07-13 12:00:00,000 failure X") 1
     (str "f") (str "2023-07-13 12:00:00,000") ⟨2023, 7, 13, 12, 0, 0, 0⟩
     (by decide) (by decide) (by decide)⟩

/-- C3 (counterexample): the line `ERROR 2023-13-01 00:00:00,000` matches
the claimed pattern, but its timestamp fails calendar validation (month
13), so classification produces no candidate entry — it reports an error
and the line is discarded. -/
theorem classification_fails_on_invalid_date :
    matchesSeverityTsPattern (str "ERROR 2023-13-01 00:00:00,000") = true ∧
    (processLine (str "ERROR 2023-13-01 00:00:00,000") 1 (str "f")).1 = none := by
  decide

lemma lexLtNat_irrefl : ∀ l : List Nat, lexLtNat l l = false := by
  intro l
  induction l with
  | nil => rfl
  | cons a as ih => simp [lexLtNat, Nat.lt_irrefl, ih]

lemma lexLtNat_trans :
    ∀ a b c : List Nat, lexLtNat a b = true → lexLtNat b c = true →
      lexLtNat a c = true := by
  intro a
  induction a with
  | nil =>
    intro b c hab hbc
    cases b with
    | nil => simp [lexLtNat] at hab
    | cons y ys =>
      cases c with
      | nil => simp [lexLtNat] at hbc
      | cons z zs => simp [lexLtNat]
  | cons x xs ih =>
    intro b c hab hbc
    cases b with
    | nil => simp [lexLtNat] at hab
    | cons y ys =>
      cases c with
      | nil => simp [lexLtNat] at hbc
      | cons z zs =>
        simp only [lexLtNat] at hab hbc ⊢
        by_cases hxy : x < y
        · by_cases hyz : y < z
          · simp [Nat.lt_trans hxy hyz]
          · by_cases hzy : z < y
            · simp [hyz, hzy] at hbc
            · have hyz' : y = z := by omega
              subst hyz'
              simp [hxy]
        · by_cases hyx : y < x
          · simp [hxy, hyx] at hab
          · have hxy' : x = y := by omega
            subst hxy'
            simp only [Nat.lt_irrefl, if_false] at hab
            by_cases hxz : x < z
            · simp [hxz]
            · by_cases hzx : z < x
              · simp [hxz, hzx] at hbc
              · have hxz' : x = z := by omega
                subst hxz'
                simp only [Nat.lt_irrefl, if_false] at hbc ⊢
                exact ih ys zs hab hbc

lemma lexLtNat_total :
    ∀ a b : List Nat, a ≠ b → lexLtNat a b = true ∨ lexLtNat b a = true := by
  intro a
  induction a with
  | nil =>
    intro b hne
    cases b with
    | nil => exact absurd rfl hne
    | cons y ys => left; simp [lexLtNat]
  | cons x xs ih =>
    intro b hne
    cases b with
    | nil => right; simp [lexLtNat]
    | cons y ys =>
      rcases Nat.lt_trichotomy x y with h | h | h
      · left; simp [lexLtNat, h]
      · subst h
        have hne' : xs ≠ ys := fun h' => hne (by rw [h'])
        rcases ih ys hne' with h' | h'
        · left; simp [lexLtNat, Nat.lt_irrefl, h']
        · right; simp [lexLtNat, Nat.lt_irrefl, h']
      · right; simp [lexLtNat, h, Nat.lt_asymm h]

lemma char_toNat_injective : Function.Injective Char.toNat := by
  intro a b h
  have ha := Char.ofNat_toNat a
  have hb := Char.ofNat_toNat b
  rw [← ha, ← hb, h]

lemma charsLt_irrefl (a : Str) : charsLt a a = false := by
  simp [charsLt, lexLtNat_irrefl]

lemma charsLt_trans {a b c : Str} (h1 : charsLt a b = true) (h2 : charsLt b c = true) :
    charsLt a c = true :=
  lexLtNat_trans _ _ _ h1 h2

lemma charsLt_total {a b : Str} (hne : a ≠ b) :
    charsLt a b = true ∨ charsLt b a = true := by
  refine lexLtNat_total _ _ (fun h => hne ?_)
  exact List.map_injective_iff.mpr char_toNat_injective h

/-- C7 (counterexample): the `nodeip` comparison is not transitive on a
collection mixing parseable and unparseable addresses, hence not a strict
total order there.  `"10.0.0.10" < "10.0.0.11x"` and
`"10.0.0.11x" < "10.0.0.2"` (lexicographic fallback, since `10.0.0.11x`
does not parse), yet `"10.0.0.10" < "10.0.0.2"` is false (numeric
comparison) — indeed `"10.0.0.2" < "10.0.0.10"` holds, a cycle. -/
theorem byNodeIPLess_not_transitive :
    byNodeIPLess (str "10.0.0.10") (str "10.0.0.11x") = true ∧
    byNodeIPLess (str "10.0.0.11x") (str "10.0.0.2") = true ∧
    byNodeIPLess (str "10.0.0.10") (str "10.0.0.2") = false ∧
    byNodeIPLess (str "10.0.0.2") (str "10.0.0.10") = true := by
  decide

/-- C7 (amended): the `nodeip` comparison is irreflexive on all address
strings; it orders `"10.0.0.2"` before `"10.0.0.10"` by numeric octet-wise
comparison; whenever either address fails to parse as an IP it compares
lexicographically, and on collections of addresses none of which parses it
is a strict total order (transitive and total up to equality).  It is not
transitive on mixed collections. -/
theorem byNodeIPLess_order_properties :
    (∀ a : Str, byNodeIPLess a a = false) ∧
    byNodeIPLess (str "10.0.0.2") (str "10.0.0.10") = true ∧
    byNodeIPLess (str "10.0.0.10") (str "10.0.0.2") = false ∧
    (∀ a b : Str, parseIP a = none → byNodeIPLess a b = charsLt a b) ∧
    (∀ a b : Str, parseIP b = none → byNodeIPLess a b = charsLt a b) ∧
    (∀ a b c : Str, parseIP a = none → parseIP b = none → parseIP c = none →
      byNodeIPLess a b = true → byNodeIPLess b c = true →
      byNodeIPLess a c = true) ∧
    (∀ a b : Str, parseIP a = none → parseIP b = none → a ≠ b →
      byNodeIPLess a b = true ∨ byNodeIPLess b a = true) := by
  have hlex : ∀ a b : Str, parseIP a = none → byNodeIPLess a b = charsLt a b := by
    intro a b ha
    unfold byNodeIPLess
    rw [ha]
  have hlex' : ∀ a b : Str, parseIP b = none → byNodeIPLess a b = charsLt a b := by
    intro a b hb
    unfold byNodeIPLess
    rw [hb]
    cases parseIP a <;> rfl
  refine ⟨?_, by decide, by decide, hlex, hlex', ?_, ?_⟩
  · intro a
    unfold byNodeIPLess
    cases parseIP a with
    | none => exact charsLt_irrefl a
    | some i => exact lexLtNat_irrefl i
  · intro a b c ha hb hc h1 h2
    rw [hlex a b ha] at h1
    rw [hlex b c hb] at h2
    rw [hlex a c ha]
    exact charsLt_trans h1 h2
  · intro a b ha hb hne
    rw [hlex a b ha, hlex b a hb]
    exact charsLt_total hne

/-- Witness for the amended C7 theorem at concrete unparseable addresses
(`hostA`, `hostB`, `hostC`) and the concrete numeric pair. -/
theorem byNodeIPLess_order_properties_witness :
    byNodeIPLess (str "hostA") (str "hostB") = charsLt (str "hostA") (str "hostB") ∧
    byNodeIPLess (str "hostA") (str "hostC") = true ∧
    (byNodeIPLess (str "hostA") (str "hostB") = true ∨
     byNodeIPLess (str "hostB") (str "hostA") = true) :=
  ⟨byNodeIPLess_order_properties.2.2.2.1 (str "hostA") (str "hostB") (by decide),
   byNodeIPLess_order_properties.2.2.2.2.2.1 (str "hostA") (str "hostB") (str "hostC")
     (by decide) (by decide) (by decide) (by decide) (by decide),
   byNodeIPLess_order_properties.2.2.2.2.2.2 (str "hostA") (str "hostB")
     (by decide) (by decide) (by decide)⟩

lemma isPrefixOf_cons2 (x y : Char) (xs ys : Str) :
    List.isPrefixOf (x :: xs) (y :: ys) = (x == y && List.isPrefixOf xs ys) := rfl

lemma getD_one_irrel {α : Type} (l : List α) (d d' : α) (h : 1 < l.length) :
    l[1]?.getD d = l[1]?.getD d' := by
  cases l with
  | nil => simp at h
  | cons a t =>
    cases t with
    | nil => simp at h
    | cons b t' => simp

lemma dcLine_not_statusCode {line : Str} (h : isDcLine line = true) :
    hasStatusCode line = false := by
  have hD : str "Datacenter:" = 'D' :: 'a' :: str "tacenter:" := rfl
  cases line with
  | nil =>
    rw [isDcLine, hD] at h
    exact absurd h (by simp [List.isPrefixOf])
  | cons c1 rest =>
    cases rest with
    | nil =>
      rw [isDcLine, hD, isPrefixOf_cons2] at h
      simp [List.isPrefixOf] at h
    | cons c2 rest2 =>
      rw [isDcLine, hD, isPrefixOf_cons2, isPrefixOf_cons2] at h
      simp only [Bool.and_eq_true, beq_iff_eq] at h
      obtain ⟨h1, h2, _⟩ := h
      subst h1
      subst h2
      have hUN : str "UN" = ['U', 'N'] := rfl
      have hDN : str "DN" = ['D', 'N'] := rfl
      have hUL : str "UL" = ['U', 'L'] := rfl
      have hDL : str "DL" = ['D', 'L'] := rfl
      have hUU : str "UU" = ['U', 'U'] := rfl
      have hUJ : str "UJ" = ['U', 'J'] := rfl
      have hUM : str "UM" = ['U', 'M'] := rfl
      have e1 : (('U' : Char) == 'D') = false := rfl
      have e2 : (('D' : Char) == 'D') = true := rfl
      have e3 : (('N' : Char) == 'a') = false := rfl
      have e4 : (('L' : Char) == 'a') = false := rfl
      simp [hasStatusCode, statusCodes, hUN, hDN, hUL, hDL, hUU, hUJ, hUM,
            isPrefixOf_cons2, e1, e2, e3, e4]

lemma ntLoop_spec :
    ∀ (lines : List Str) (dc : Str) (nodes : List Node) (found : Bool),
      ntLoop dc nodes found lines =
        (nodes ++ sourcesFrom dc lines, found || lines.any statusRow) := by
  intro lines
  induction lines with
  | nil => intro dc nodes found; simp [ntLoop, sourcesFrom]
  | cons l ls ih =>
    intro dc nodes found
    by_cases hdc : isDcLine l = true
    · have hsc := dcLine_not_statusCode hdc
      have hsr : statusRow l = false := by simp [statusRow, hsc]
      by_cases hlen : 1 < (goFields l).length
      · have hlab : dcLabelOf l = some ((goFields l).getD 1 []) := by
          simp [dcLabelOf, hdc, hlen]
        simp only [ntLoop, hdc, if_true, hlen]
        rw [ih]
        simp [sourcesFrom, hsr, hlab, getD_one_irrel _ dc ([] : Str) hlen]
      · have hlab : dcLabelOf l = none := by
          simp [dcLabelOf, hlen]
        simp only [ntLoop, hdc, if_true, hlen, if_false]
        rw [ih]
        simp [sourcesFrom, hsr, hlab]
    · have hdc' : isDcLine l = false := by
        cases hh : isDcLine l
        · rfl
        · exact absurd hh hdc
      by_cases hsc : hasStatusCode l = true
      · by_cases hlen : 1 < (goFields l).length
        · have hsr : statusRow l = true := by simp [statusRow, hsc, hlen]
          have hlab : dcLabelOf l = none := by simp [dcLabelOf, hdc']
          simp only [ntLoop, hdc', Bool.false_eq_true, if_false, hsc, if_true, hlen]
          rw [ih]
          simp [sourcesFrom, hsr, hlab, rowAddress]
        · have hsr : statusRow l = false := by
            simp only [statusRow, hsc, Bool.true_and]
            exact decide_eq_false hlen
          have hlab : dcLabelOf l = none := by simp [dcLabelOf, hdc']
          simp only [ntLoop, hdc', Bool.false_eq_true, if_false, hsc, if_true, hlen]
          rw [ih]
          simp [sourcesFrom, hsr, hlab]
      · have hsc' : hasStatusCode l = false := by
          cases hh : hasStatusCode l
          · rfl
          · exact absurd hh hsc
        have hsr : statusRow l = false := by simp [statusRow, hsc']
        have hlab : dcLabelOf l = none := by simp [dcLabelOf, hdc']
        simp only [ntLoop, hdc', Bool.false_eq_true, if_false, hsc',
                   Bool.false_eq_true, if_false]
        rw [ih]
        simp [sourcesFrom, hsr, hlab]

lemma sourcesFrom_eq_nil_iff :
    ∀ (ls : List Str) (dc : Str),
      sourcesFrom dc ls = [] ↔ ls.any statusRow = false := by
  intro ls
  induction ls with
  | nil => intro dc; simp [sourcesFrom]
  | cons l t ih =>
    intro dc
    cases hsr : statusRow l
    · simp [sourcesFrom, hsr, ih]
    · simp [sourcesFrom, hsr]

lemma sourcesFrom_eq_range :
    ∀ (lines : List Str) (dc : Str),
      sourcesFrom dc lines =
        (List.range lines.length).filterMap (fun i =>
          if statusRow (lines.getD i []) then
            some ⟨rowAddress (lines.getD i []), lastLabelFrom dc (lines.take i)⟩
          else none) := by
  intro lines
  induction lines with
  | nil => intro dc; simp [sourcesFrom]
  | cons l ls ih =>
    intro dc
    rw [List.length_cons, List.range_succ_eq_map, List.filterMap_cons,
        List.filterMap_map]
    have hfun :
        ((fun i =>
          if statusRow ((l :: ls).getD i []) then
            some (Node.mk (rowAddress ((l :: ls).getD i []))
              (lastLabelFrom dc ((l :: ls).take i)))
          else none) ∘ Nat.succ) =
        (fun i =>
          if statusRow (ls.getD i []) then
            some (Node.mk (rowAddress (ls.getD i []))
              (lastLabelFrom ((dcLabelOf l).getD dc) (ls.take i)))
          else none) := by
      funext i
      simp [Function.comp, List.getD_cons_succ, List.take_succ_cons, lastLabelFrom]
    rw [hfun, ← ih]
    cases hsr : statusRow l
    · simp [sourcesFrom, hsr, lastLabelFrom]
    · simp [sourcesFrom, hsr, lastLabelFrom]

/-- C8: for every status report (with no read failure), the Topology
Parser returns one Source per recognized status row — a line beginning
with one of the seven status codes and having a second
whitespace-delimited field, which becomes the address — in encounter
order without deduplication, each carrying the most recently seen
Datacenter group label at that point (empty if none was seen); a report
with zero recognized status rows fails with `NoSourcesFound`. -/
theorem parseNodetoolStatus_spec :
    ∀ lines : List Str,
      parseNodetoolStatus lines none =
        (if specSources lines = [] then Except.error NtError.noSourcesFound
         else Except.ok (specSources lines)) := by
  intro lines
  have h := ntLoop_spec lines [] [] false
  have hspec : specSources lines = sourcesFrom [] lines := by
    rw [specSources, sourcesFrom_eq_range lines []]
  unfold parseNodetoolStatus
  rw [h]
  simp only [List.nil_append, Bool.false_or]
  cases hany : lines.any statusRow
  · have hnil : sourcesFrom [] lines = [] := (sourcesFrom_eq_nil_iff lines []).mpr hany
    rw [hspec, hnil]
    simp
  · have hne : ¬ sourcesFrom [] lines = [] := by
      intro hcontra
      rw [(sourcesFrom_eq_nil_iff lines []).mp hcontra] at hany
      exact Bool.false_ne_true hany
    rw [hspec]
    simp [hne]

/-- C10 (counterexample): on an input whose read fails before any line is
delivered (zero recognized status rows), the parser returns
`NoSourcesFound` instead of surfacing the read failure, because the
source checks `foundNodeStatus` before `scanner.Err()`. -/
theorem readError_masked_without_rows :
    parseNodetoolStatus [] (some (str "boom")) = Except.error NtError.noSourcesFound ∧
    parseNodetoolStatus [] (some (str "boom")) ≠
      Except.error (NtError.readError (str "boom")) := by
  constructor
  · rfl
  · intro hcontra
    rw [show parseNodetoolStatus [] (some (str "boom")) =
          Except.error NtError.noSourcesFound from rfl] at hcontra
    exact NtError.noConfusion (Except.error.inj hcontra)

/-- C10 (amended): an underlying read failure is surfaced as-is provided
at least one status row was recognized before the failure; with zero
recognized rows the parser reports `NoSourcesFound` instead, masking the
read error. -/
theorem readError_surfaced_with_rows :
    ∀ (lines : List Str) (e : Str), lines.any statusRow = true →
      parseNodetoolStatus lines (some e) = Except.error (NtError.readError e) := by
  intro lines e hany
  have h := ntLoop_spec lines [] [] false
  unfold parseNodetoolStatus
  rw [h]
  simp [hany]

/-- Witness for the amended C10 theorem on a concrete one-row report. -/
theorem readError_surfaced_with_rows_witness :
    ([str "UN 10.0.0.1"].any statusRow = true) ∧
    parseNodetoolStatus [str "UN 10.0.0.1"] (some (str "boom")) =
      Except.error (NtError.readError (str "boom")) :=
  ⟨by decide, readError_surfaced_with_rows [str "UN 10.0.0.1"] (str "boom") (by decide)⟩

/-- C9: when one source's log file cannot be opened, the aggregated
collection equals the one produced from the remaining sources alone (the
failing source contributes zero entries), and the failure is reported in
the per-source error list rather than propagated — aggregation always
yields a result for the remaining sources, the run is not aborted. -/
theorem aggregation_isolates_missing_source :
    ∀ (fsys : Str → Option (List Str)) (queries : List Str) (dir : Str)
      (nodes : List Node) (addr : Str),
      fsys addr = none →
      (aggregateRun fsys queries dir nodes).1 =
        (aggregateRun fsys queries dir
          (nodes.filter (fun m => decide (m.Address ≠ addr)))).1 ∧
      ((∃ m ∈ nodes, m.Address = addr) →
        addr ∈ (aggregateRun fsys queries dir nodes).2) := by
  intro fsys queries dir nodes addr ha
  induction nodes with
  | nil => exact ⟨rfl, by simp⟩
  | cons m ms ih =>
    by_cases hm : m.Address = addr
    · have hsn : scanNode fsys queries dir m = (some [], some m.Address) := by
        simp [scanNode, hm, ha]
      have hfil : (m :: ms).filter (fun m' => decide (m'.Address ≠ addr)) =
          ms.filter (fun m' => decide (m'.Address ≠ addr)) := by
        simp [List.filter_cons, hm]
      constructor
      · rw [hfil]
        simp only [aggregateRun, hsn]
        rw [← ih.1]
        cases (aggregateRun fsys queries dir ms).1 <;> simp
      · intro _
        simp [aggregateRun, hsn, hm]
    · have hfil : (m :: ms).filter (fun m' => decide (m'.Address ≠ addr)) =
          m :: ms.filter (fun m' => decide (m'.Address ≠ addr)) := by
        simp [List.filter_cons, hm]
      constructor
      · rw [hfil]
        simp only [aggregateRun]
        rw [ih.1]
      · intro hex
        obtain ⟨m', hmem, hm'⟩ := hex
        rcases List.mem_cons.mp hmem with rfl | hmem'
        · exact absurd hm' hm
        · have := ih.2 ⟨m', hmem', hm'⟩
          simp only [aggregateRun]
          exact List.mem_append_right _ this

/-- Witness for the C9 theorem at `sampleFsys`/`sampleNodes`, where node
`10.0.0.2` has no log file. -/
theorem aggregation_isolates_missing_source_witness :
    sampleFsys (str "10.0.0.2") = none ∧
    (aggregateRun sampleFsys [] (str "top") sampleNodes).1 =
      (aggregateRun sampleFsys [] (str "top")
        (sampleNodes.filter (fun m => decide (m.Address ≠ str "10.0.0.2")))).1 ∧
    str "10.0.0.2" ∈ (aggregateRun sampleFsys [] (str "top") sampleNodes).2 :=
  ⟨by decide,
   (aggregation_isolates_missing_source sampleFsys [] (str "top") sampleNodes
     (str "10.0.0.2") (by decide)).1,
   (aggregation_isolates_missing_source sampleFsys [] (str "top") sampleNodes
     (str "10.0.0.2") (by decide)).2 (by decide)⟩

end Wetlog
